import Mathlib

/-!
# Verification of the MplusPrep conversion pipeline

Shallow embedding of `src/mplusprep.py`: variable-name legality checking and
sanitization (`illegal_names`, `sanitize_names`), fixed-format data emission
(`write_dat`), the two model-script renderers (`write_inp_med`,
`write_inp_mod`), the orchestrator (`convert`) and the CSV encoding-fallback
loop (`read_csv_with_fallback`).

Python strings are modelled as Lean `String`s, with the character-level
operations (`re.sub` character-class stripping, slicing, `str.isdigit`)
expressed through the underlying character list.  The `while` collision loop
of `sanitize_names` is modelled with explicit fuel: a `none` result means the
Python loop runs forever on that input.
-/

namespace MplusPrep

/-- A character of the class `[A-Za-z0-9_]` (the class kept by
`re.sub(r"[^A-Za-z0-9_]", "", c)` and allowed after the first character by
the legality regex `^[A-Za-z][A-Za-z0-9_]*$`). -/
def isWordChar (ch : Char) : Bool :=
  ch.isAlpha || ch.isDigit || ch = '_'

/-- `re.match(r"^[A-Za-z][A-Za-z0-9_]*$", c)` succeeds: `c` is nonempty,
starts with an ASCII letter and all later characters are word characters. -/
def matchesNameRe (c : String) : Bool :=
  match c.data with
  | [] => false
  | ch :: rest => ch.isAlpha && rest.all isWordChar

/-- `illegal_names(cols)` (mplusprep.py:24-25): the ordered sublist of
identifiers that fail the regex or are longer than 8 characters. -/
def illegalNames (cols : List String) : List String :=
  cols.filter (fun c => !matchesNameRe c || decide (8 < c.length))

/-- `re.sub(r"[^A-Za-z0-9_]", "", c)` (mplusprep.py:30): remove every
character outside `[A-Za-z0-9_]`. -/
def stripIllegal (c : String) : String :=
  String.mk (c.data.filter isWordChar)

/-- Python slicing `n[:k]`. -/
def strTake (k : Nat) (s : String) : String :=
  String.mk (s.data.take k)

/-- `n[0].isdigit()` on a nonempty string (`false` on the empty string,
which Python guards with `not n or ...`). -/
def startsWithDigit (s : String) : Bool :=
  match s.data with
  | [] => false
  | ch :: _ => ch.isDigit

/-- The collision perturbation `n = n[:7] + str(counter % 10)`
(mplusprep.py:35). -/
def perturb (counter : Nat) (n : String) : String :=
  strTake 7 n ++ toString (counter % 10)

/-- The `while n in used` retry loop (mplusprep.py:34-35), with fuel:
`none` means the Python loop does not terminate within `fuel` iterations
(and, since the perturbation depends only on the fixed `counter`, a `none`
for every fuel means it never terminates). -/
def collideLoop (fuel : Nat) (used : List String) (counter : Nat) (n : String) :
    Option String :=
  if n ∈ used then
    match fuel with
    | 0 => none
    | f + 1 => collideLoop f used counter (perturb counter n)
  else some n

/-- Python `mp[c] = n` on a dict: replace an existing binding of `c` in
place, otherwise append the new binding. -/
def dictInsert (mp : List (String × String)) (k v : String) :
    List (String × String) :=
  if mp.any (fun p => p.1 == k) then
    mp.map (fun p => if p.1 == k then (k, v) else p)
  else mp ++ [(k, v)]

/-- The candidate name for column `c` before collision resolution
(mplusprep.py:30-33): strip illegal characters, fall back to
`"v" + str(counter)` when empty or digit-led, truncate to 8. -/
def candidate (counter : Nat) (c : String) : String :=
  let n0 := stripIllegal c
  let n1 := if n0.data = [] ∨ startsWithDigit n0 = true
            then "v" ++ toString counter else n0
  strTake 8 n1

/-- Body of `sanitize_names` (mplusprep.py:27-39): fold over the columns
threading the dict `mp`, the set `used` (as a list) and `counter`. -/
def sanitizeGo (fuel : Nat) : List String → List (String × String) →
    List String → Nat → Option (List (String × String))
  | [], mp, _, _ => some mp
  | c :: cs, mp, used, counter =>
    match collideLoop fuel used counter (candidate counter c) with
    | none => none
    | some n => sanitizeGo fuel cs (dictInsert mp c n) (n :: used) (counter + 1)

/-- `sanitize_names(cols)` (mplusprep.py:27-39), fuel-indexed: `mp`, `used`
empty, `counter = 1`. -/
def sanitizeNames (fuel : Nat) (cols : List String) :
    Option (List (String × String)) :=
  sanitizeGo fuel cols [] [] 1

/-! ## Data emission (`write_dat`, mplusprep.py:41-42)

`df.to_csv(path, sep=" ", index=False, header=False, float_format="%.6f")`.
A dataframe cell is a float, an integer or a string: pandas applies
`float_format` ("%.6f", exactly 6 fractional digits on finite values) to
float cells only, prints integer cells as plain decimal integers, and
(default `QUOTE_MINIMAL`) wraps a string cell in double quotes, doubling
embedded quotes, iff it contains the separator, the quote character or a
line break.  A float cell is not always a finite number: missing values
are the float `NaN`, which `to_csv` renders as the empty string (default
`na_rep=""`), and infinities render as `"inf"` / `"-inf"` (that is what
`"%.6f" % inf` produces), so the float domain is modelled as finite
rationals plus `NaN` and the two infinities.  Decimal printing of naturals
is modelled by explicit digit extraction; `%.6f` rounding is modelled as
rounding the rational value to millionths (the exact tie-breaking of the C
library is immaterial to every claim). -/

/-- The digit character for `d < 10`. -/
def digitChar (d : Nat) : Char := Char.ofNat (48 + d)

/-- Decimal digit string of a natural number (the digits of `repr(n)`). -/
def natDigits (n : Nat) : List Char :=
  if _h : n < 10 then [digitChar n]
  else natDigits (n / 10) ++ [digitChar (n % 10)]
decreasing_by exact Nat.div_lt_self (by omega) (by omega)

/-- The 6 zero-padded fractional digits of `%.6f`, from `k < 10^6`
millionths. -/
def sixDigits (k : Nat) : List Char :=
  [digitChar (k / 100000 % 10), digitChar (k / 10000 % 10),
   digitChar (k / 1000 % 10), digitChar (k / 100 % 10),
   digitChar (k / 10 % 10), digitChar (k % 10)]

/-- A float-cell value: a finite number, `NaN` (pandas missing value), or
an infinity. -/
inductive FloatVal : Type
  | finite (q : ℚ)
  | nan
  | inf
  | negInf
deriving DecidableEq

/-- A dataframe cell: float, integer, or text. -/
inductive Cell : Type
  | flt (v : FloatVal)
  | intg (n : Int)
  | txt (s : String)
deriving DecidableEq

/-- `"%.6f" % q` on a finite value: sign, integer digits, `'.'`, exactly 6
fractional digits (the value rounded to millionths). -/
def renderFlt (q : ℚ) : List Char :=
  let m : Nat := (round (q * 1000000) : Int).natAbs
  (if q < 0 then ['-'] else []) ++ natDigits (m / 1000000)
    ++ '.' :: sixDigits (m % 1000000)

/-- A rendered float cell: `%.6f` on a finite value, the empty string for
`NaN` (`to_csv`'s default `na_rep=""`), `"inf"` / `"-inf"` for the
infinities. -/
def renderFloatVal : FloatVal → List Char
  | .finite q => renderFlt q
  | .nan => []
  | .inf => ['i', 'n', 'f']
  | .negInf => ['-', 'i', 'n', 'f']

/-- csv `QUOTE_MINIMAL` with separator `' '`: quote and double embedded
quotes iff the text holds a separator, quote or line break. -/
def quoteMinimal (s : String) : List Char :=
  if s.data.any (fun ch => ch = ' ' || ch = '"' || ch = '\n' || ch = '\r') then
    '"' :: (s.data.flatMap fun ch => if ch = '"' then ['"', '"'] else [ch]) ++ ['"']
  else s.data

/-- One rendered field of the `.dat` file. -/
def renderCell : Cell → List Char
  | .flt v => renderFloatVal v
  | .intg n => (if n < 0 then ['-'] else []) ++ natDigits n.natAbs
  | .txt s => quoteMinimal s

/-- `" ".join(fields)` at character level. -/
def joinSpace : List (List Char) → List Char
  | [] => []
  | [f] => f
  | f :: g :: fs => f ++ ' ' :: joinSpace (g :: fs)

/-- `write_dat` (mplusprep.py:41-42): one line per row, fields separated by
single spaces, no header, no index. -/
def writeDat (rows : List (List Cell)) : List String :=
  rows.map fun r => String.mk (joinSpace (r.map renderCell))

/-- Count of whitespace-separated fields of a line: the number of maximal
runs of non-space characters. -/
def countFieldsGo : Bool → List Char → Nat
  | _, [] => 0
  | inField, ch :: cs =>
    if ch = ' ' then countFieldsGo false cs
    else (if inField then 0 else 1) + countFieldsGo true cs

/-- Whitespace-separated field count of a line. -/
def fieldCount (s : String) : Nat := countFieldsGo false s.data

/-- Number of fractional digits a rendered value shows: the length of the
run after the last `'.'` (0 when there is no `'.'`). -/
def fracLen (s : String) : Nat :=
  if '.' ∈ s.data then (s.data.reverse.takeWhile (fun ch => ch ≠ '.')).length
  else 0

/-! ## Script rendering (`fmt_names`, `write_inp_med`, `write_inp_mod`,
mplusprep.py:44-71)

Each renderer is modelled as the ordered list of chunks passed to
`f.write`; the emitted script is their concatenation.  `none` models the
`ValueError` that Python raises when unpacking `df.columns[:3]` (resp.
`[:4]`) with too few columns. -/

/-- Successive chunks of 5 (`names[i:i+per_line]` for `i` in steps of 5). -/
def chunkList : List String → List (List String)
  | [] => []
  | x :: xs => (x :: xs).take 5 :: chunkList ((x :: xs).drop 5)
termination_by l => l.length
decreasing_by simp [List.length_drop]; omega

/-- `fmt_names(names)` (mplusprep.py:44-46): 5 names per line, indented. -/
def fmtNames (names : List String) : String :=
  String.intercalate "\n" ((chunkList names).map fun l =>
    "    " ++ String.intercalate " " l)

/-- `write_inp_med` (mplusprep.py:48-58): the chunks written for the simple
mediation script; requires at least 3 columns. -/
def writeInpMed (cols : List String) (datAbs : String) : Option (List String) :=
  match cols with
  | x :: m :: y :: _ =>
    some ["TITLE: Simple mediation model (X M Y);\n\n",
      "DATA:\n", "  FILE = " ++ datAbs ++ ";\n\n",
      "VARIABLE:\n  NAMES =\n", fmtNames cols, ";\n\n",
      "  USEVARIABLES = " ++ x ++ " " ++ m ++ " " ++ y ++ ";\n\n",
      "ANALYSIS:\n  ESTIMATOR = MLR;\n  BOOTSTRAP = 5000;\n\n",
      "MODEL:\n",
      "  " ++ m ++ " ON " ++ x ++ " (a);\n",
      "  " ++ y ++ " ON " ++ m ++ " (b);\n",
      "  " ++ y ++ " ON " ++ x ++ " (c);\n\n",
      "MODEL CONSTRAINT:\n  NEW(DIRECT INDIRECT TOTAL);\n  INDIRECT = a*b;\n  DIRECT = c;\n  TOTAL = DIRECT + INDIRECT;\n\n",
      "OUTPUT:\n  STANDARDIZED CINTERVAL(BOOTSTRAP);\n"]
  | _ => none

/-- `write_inp_mod` (mplusprep.py:60-71): the chunks written for the
moderated mediation script; requires at least 4 columns. -/
def writeInpMod (cols : List String) (datAbs : String) : Option (List String) :=
  match cols with
  | x :: m :: y :: w :: _ =>
    some ["TITLE: Moderated mediation model;\n\n",
      "DATA:\n", "  FILE = " ++ datAbs ++ ";\n\n",
      "VARIABLE:\n  NAMES =\n", fmtNames cols, ";\n\n",
      "  USEVARIABLES = " ++ x ++ " " ++ m ++ " " ++ y ++ " " ++ w ++ " XW;\n\n",
      "DEFINE:\n", "  XW = " ++ x ++ "*" ++ w ++ ";\n\n",
      "ANALYSIS:\n  ESTIMATOR = MLR;\n  BOOTSTRAP = 5000;\n\n",
      "MODEL:\n",
      "  " ++ m ++ " ON " ++ x ++ " (a1) " ++ w ++ " (a2) XW (a3);\n",
      "  " ++ y ++ " ON " ++ m ++ " (b) " ++ x ++ ";\n\n",
      "MODEL CONSTRAINT:\n  NEW(INDIRECT);\n  INDIRECT = (a1 + a3*0)*b;\n\n",
      "OUTPUT:\n  STANDARDIZED CINTERVAL(BOOTSTRAP);\n"]
  | _ => none

/-! ## Orchestrator (`convert`, mplusprep.py:73-100)

The in-memory table after ingestion; the Table invariant (spec §3) says
every row has one value per column and the identifiers are unique. -/

structure Table : Type where
  cols : List String
  rows : List (List Cell)
deriving DecidableEq

/-- Analysis mode: `"m"` (mediation, default) or `"w"` (moderated). -/
inductive Mode : Type
  | m
  | w
deriving DecidableEq

/-- The two `ValueError`s `convert` can raise after ingestion: the user
refused renaming (mplusprep.py:82), or a script writer failed to unpack
enough columns. -/
inductive ConvertErr : Type
  | renameRefused
  | colUnpack
deriving DecidableEq

/-- `(write_inp_mod if mode == "w" else write_inp_med)` (mplusprep.py:93). -/
def renderInp (mode : Mode) (cols : List String) (datAbs : String) :
    Option (List String) :=
  match mode with
  | .w => writeInpMod cols datAbs
  | .m => writeInpMed cols datAbs

/-- `df.rename(columns=mp)` (mplusprep.py:84): each identifier is replaced
by its image under the dict, identifiers absent from the dict are kept. -/
def applyRename (mp : List (String × String)) (cols : List String) :
    List String :=
  cols.map fun c => (((mp.find? fun p => p.1 == c).map Prod.snd).getD c)

/-- The artifacts a successful conversion writes: the `.dat` lines, the
`.inp` chunks, and the audit rows of `<prefix>_variable_map.csv` (`none`
when no mapping was produced, mirroring `if mp:` which is false both for
`mp = None` and for an empty dict). -/
structure Outputs : Type where
  datLines : List String
  inpChunks : List String
  audit : Option (List (String × String))
deriving DecidableEq

/-- `convert(inp, prefix, mode)` after ingestion (mplusprep.py:73-100),
with the sanitization-consent prompt (mplusprep.py:81) passed in as
`consent` and the absolute data-file path as `datAbs`.  The outer `none`
models non-termination of the sanitization collision loop; `Except.error`
models the `ValueError`s, which abort the run before any artifact of the
model is produced. -/
def convert (fuel : Nat) (t : Table) (consent : Bool) (mode : Mode)
    (datAbs : String) : Option (Except ConvertErr Outputs) :=
  if illegalNames t.cols = [] then
    match renderInp mode t.cols datAbs with
    | none => some (.error .colUnpack)
    | some chunks => some (.ok ⟨writeDat t.rows, chunks, none⟩)
  else if consent = false then some (.error .renameRefused)
  else
    match sanitizeNames fuel t.cols with
    | none => none
    | some mp =>
      match renderInp mode (applyRename mp t.cols) datAbs with
      | none => some (.error .colUnpack)
      | some chunks =>
        some (.ok ⟨writeDat t.rows, chunks,
          if mp = [] then none else some mp⟩)

/-- Whether the conversion finished without error. -/
def isOk : Option (Except ConvertErr Outputs) → Bool
  | some (.ok _) => true
  | _ => false

/-- The audit rows of a conversion result (`none` when the conversion
failed or wrote no audit). -/
def extractAudit : Option (Except ConvertErr Outputs) →
    Option (List (String × String))
  | some (.ok o) => o.audit
  | _ => none

/-! ## CSV ingestion with encoding fallback
(`read_csv_with_fallback`, mplusprep.py:4-12)

`pd.read_csv(p, encoding=e)` first decodes the raw bytes under `e` (this
step alone can raise `UnicodeDecodeError`, the only exception the loop
catches) and then parses the decoded text (any parse failure propagates out
of the loop uncaught).  Decoding under the four multi-byte candidates is an
external codec, modelled as an arbitrary partial function; the final
candidate `latin1` is Python's total single-byte codec: every byte `b`
decodes to the character with code point `b`. -/

/-- The candidate encodings of mplusprep.py:5, in trial order. -/
inductive Enc : Type
  | utf8
  | gbk
  | gb2312
  | cp936
  | latin1
deriving DecidableEq

/-- `["utf-8", "gbk", "gb2312", "cp936", "latin1"]`. -/
def candidateEncs : List Enc := [.utf8, .gbk, .gb2312, .cp936, .latin1]

/-- Python's `latin1` codec: total, each byte maps to the code point of its
value.  (Code points below 256 are valid characters.) -/
def latin1Decode (bs : List (Fin 256)) : List Char :=
  bs.map fun b => Char.ofNat b.val

/-- The full decoder: `latin1` decodes as `latin1Decode` (total), any other
candidate defers to the external codec `decOther`, where `none` models a
`UnicodeDecodeError`. -/
def mkDec (decOther : Enc → List (Fin 256) → Option (List Char))
    (e : Enc) (bs : List (Fin 256)) : Option (List Char) :=
  if e = .latin1 then some (latin1Decode bs) else decOther e bs

/-- The `for e in [...]` loop of mplusprep.py:5-9: try each candidate; a
decode failure (`UnicodeDecodeError`) moves to the next candidate, a decode
success returns the parse outcome (success or a propagating parse error)
together with the encoding used.  `none` means every candidate failed to
decode and control falls through to the interactive prompt. -/
def fallbackLoop (parse : List Char → Except ε τ)
    (dec : Enc → List (Fin 256) → Option (List Char)) :
    List Enc → List (Fin 256) → Option (Except ε (τ × Enc))
  | [], _ => none
  | e :: es, bs =>
    match dec e bs with
    | none => fallbackLoop parse dec es bs
    | some txt => some ((parse txt).map fun t => (t, e))

/-- Errors of `read_csv_with_fallback`: a propagating parse error, or the
`UnicodeDecodeError` raised when the user refuses the forced fallback
(mplusprep.py:12). -/
inductive CsvErr (ε : Type) : Type
  | parseFail (e : ε)
  | decodeRefused

/-- `read_csv_with_fallback(p)` (mplusprep.py:4-12) over the raw bytes of
the file, with the interactive prompt's answer passed in as `userYes`. -/
def readCsvWithFallback (parse : List Char → Except ε τ)
    (decOther : Enc → List (Fin 256) → Option (List Char))
    (userYes : Bool) (bs : List (Fin 256)) : Except (CsvErr ε) (τ × Enc) :=
  match fallbackLoop parse (mkDec decOther) candidateEncs bs with
  | some (.ok r) => .ok r
  | some (.error e) => .error (.parseFail e)
  | none =>
    if userYes then
      match parse (latin1Decode bs) with
      | .ok t => .ok (t, .latin1)
      | .error e => .error (.parseFail e)
    else .error .decodeRefused

/-! ## Helper lemmas -/

/-- A candidate that is not yet taken is returned unchanged, whatever the
fuel. -/
theorem collideLoop_of_not_mem {n : String} {used : List String}
    (h : n ∉ used) (fuel counter : Nat) :
    collideLoop fuel used counter n = some n := by
  rw [collideLoop.eq_def, if_neg h]

/-- On the input `["aaaaaaa2", "aaaaaaa2x"]` the second column's retry loop
is stuck: the candidate `"aaaaaaa2"` is taken and the perturbation with
`counter = 2` maps it to itself, so no amount of fuel suffices. -/
theorem collideLoop_stuck (fuel : Nat) :
    collideLoop fuel ["aaaaaaa2"] 2 "aaaaaaa2" = none := by
  induction fuel with
  | zero => decide
  | succ f ih =>
    rw [collideLoop.eq_def, if_pos (by decide)]
    rw [show perturb 2 "aaaaaaa2" = "aaaaaaa2" from by decide]
    exact ih

/-! ## C2: termination of the collision-resolution retry loop -/

/-- C2 (code_bug): the retry loop of `sanitize` does NOT terminate on every
input.  On the column list `["aaaaaaa2", "aaaaaaa2x"]` the second
candidate truncates to `"aaaaaaa2"`, which is already assigned, and the
perturbation `n[:7] + str(2 % 10)` maps `"aaaaaaa2"` to itself, so
`sanitize_names` loops forever: the fuel-indexed model returns `none` for
every fuel bound. -/
theorem c2_sanitize_nonterminating (fuel : Nat) :
    sanitizeNames fuel ["aaaaaaa2", "aaaaaaa2x"] = none := by
  rw [sanitizeNames]
  simp only [sanitizeGo]
  rw [show candidate 1 "aaaaaaa2" = "aaaaaaa2" from by decide,
    collideLoop_of_not_mem (by decide) fuel 1]
  simp only []
  rw [show candidate (1 + 1) "aaaaaaa2x" = "aaaaaaa2" from by decide,
    show dictInsert [] "aaaaaaa2" "aaaaaaa2" = [("aaaaaaa2", "aaaaaaa2")]
      from by decide]
  rw [collideLoop_stuck fuel]

/-! ## C3: guarantees of the sanitize mapping -/

/-- C3 (code_bug): `sanitize` does not guarantee that every produced value
satisfies the Symbol Grammar.  On `["_foo"]` it returns the identity
mapping, but `"_foo"` starts with an underscore, so the code's own
`illegal_names` still flags it: the sanitized output violates the grammar
the sanitizer exists to establish. -/
theorem c3_sanitize_value_stays_illegal (fuel : Nat) :
    sanitizeNames fuel ["_foo"] = some [("_foo", "_foo")] ∧
      illegalNames ["_foo"] = ["_foo"] := by
  constructor
  · rw [sanitizeNames]
    simp only [sanitizeGo]
    rw [show candidate 1 "_foo" = "_foo" from by decide,
      collideLoop_of_not_mem (by decide) fuel 1]
    decide
  · decide

/-! ## C4: the moderated-mediation template -/

/-- C4 (confirmed): for every table with at least 4 columns the
moderated-mediation renderer succeeds and the emitted script defines
`XW` as the product of the first and fourth columns, declares
`USEVARIABLES` as the first four columns plus `XW`, names the
coefficients `a1`, `a2`, `a3` and `b` on the two structural regressions,
and computes `INDIRECT = (a1 + a3*0)*b`, the term multiplying `a3` being
the literal `0`. -/
theorem c4_moderated_template (x m y w : String) (rest : List String)
    (datAbs : String) :
    ∃ chunks, writeInpMod (x :: m :: y :: w :: rest) datAbs = some chunks ∧
      ("  XW = " ++ x ++ "*" ++ w ++ ";\n\n") ∈ chunks ∧
      ("  USEVARIABLES = " ++ x ++ " " ++ m ++ " " ++ y ++ " " ++ w
        ++ " XW;\n\n") ∈ chunks ∧
      ("  " ++ m ++ " ON " ++ x ++ " (a1) " ++ w ++ " (a2) XW (a3);\n")
        ∈ chunks ∧
      ("  " ++ y ++ " ON " ++ m ++ " (b) " ++ x ++ ";\n\n") ∈ chunks ∧
      ("MODEL CONSTRAINT:\n  NEW(INDIRECT);\n  INDIRECT = (a1 + a3*0)*b;\n\n")
        ∈ chunks := by
  refine ⟨_, rfl, ?_, ?_, ?_, ?_, ?_⟩ <;> simp [writeInpMod]

/-! ## C6: the mediation template -/

/-- C6 (confirmed): for every table with at least 3 columns the mediation
renderer succeeds and the emitted script restricts usage to exactly the
first 3 columns in table order, names the three path coefficients `a`
(mediator on predictor), `b` (outcome on mediator) and `c` (outcome on
predictor), and declares the three derived quantities with
`INDIRECT = a*b`, `DIRECT = c` and `TOTAL = DIRECT + INDIRECT`. -/
theorem c6_mediation_template (x m y : String) (rest : List String)
    (datAbs : String) :
    ∃ chunks, writeInpMed (x :: m :: y :: rest) datAbs = some chunks ∧
      ("  USEVARIABLES = " ++ x ++ " " ++ m ++ " " ++ y ++ ";\n\n") ∈ chunks ∧
      ("  " ++ m ++ " ON " ++ x ++ " (a);\n") ∈ chunks ∧
      ("  " ++ y ++ " ON " ++ m ++ " (b);\n") ∈ chunks ∧
      ("  " ++ y ++ " ON " ++ x ++ " (c);\n\n") ∈ chunks ∧
      ("MODEL CONSTRAINT:\n  NEW(DIRECT INDIRECT TOTAL);\n  INDIRECT = a*b;\n  DIRECT = c;\n  TOTAL = DIRECT + INDIRECT;\n\n")
        ∈ chunks := by
  refine ⟨_, rfl, ?_, ?_, ?_, ?_, ?_⟩ <;> simp [writeInpMed]

/-! ## C7: legal names bypass sanitization -/

/-- C7 (confirmed): when `find_illegal` returns the empty list the
conversion takes the no-rename path for every consent value and fuel
bound: the script is rendered from the Table's original identifiers, the
data rows are emitted unchanged, and no rename mapping or audit is
produced (`sanitize` is never reached). -/
theorem c7_no_sanitize_when_legal (fuel : Nat) (t : Table) (consent : Bool)
    (mode : Mode) (datAbs : String) (h : illegalNames t.cols = []) :
    convert fuel t consent mode datAbs =
      some (match renderInp mode t.cols datAbs with
        | none => Except.error ConvertErr.colUnpack
        | some chunks => Except.ok ⟨writeDat t.rows, chunks, none⟩) := by
  unfold convert
  rw [if_pos h]
  cases hr : renderInp mode t.cols datAbs <;> simp [hr]

/-- Witness for C7 at the legal column list `["X", "M", "Y"]` with consent
refused and zero fuel: the conversion still succeeds with the original
identifiers and no audit. -/
theorem c7_no_sanitize_when_legal_witness :
    illegalNames ["X", "M", "Y"] = [] ∧
    convert 0 ⟨["X", "M", "Y"], []⟩ false .m "d" =
      some (match renderInp .m ["X", "M", "Y"] "d" with
        | none => Except.error ConvertErr.colUnpack
        | some chunks => Except.ok ⟨writeDat [], chunks, none⟩) :=
  ⟨by decide,
    c7_no_sanitize_when_legal 0 ⟨["X", "M", "Y"], []⟩ false .m "d" (by decide)⟩

/-! ## C9: refusing sanitization aborts with no artifacts -/

/-- C9 (confirmed): when illegal identifiers exist and consent is refused,
`convert` raises the naming `ValueError` (mplusprep.py:82) before the
data-file, script-file or audit writes (mplusprep.py:89-97) are reached,
so no output artifact is produced. -/
theorem c9_refusal_fatal (fuel : Nat) (t : Table) (mode : Mode)
    (datAbs : String) (h : illegalNames t.cols ≠ []) :
    convert fuel t false mode datAbs = some (.error .renameRefused) := by
  unfold convert
  rw [if_neg h]
  rfl

/-- Witness for C9 at the illegal column list `["1x"]`. -/
theorem c9_refusal_fatal_witness :
    illegalNames ["1x"] ≠ [] ∧
    convert 0 ⟨["1x"], []⟩ false .m "d" = some (.error .renameRefused) :=
  ⟨by decide, c9_refusal_fatal 0 ⟨["1x"], []⟩ .m "d" (by decide)⟩

/-! ## C1: contents of the rename-audit file -/

/-- Dict insertion never yields an empty dict. -/
theorem dictInsert_ne_nil (mp : List (String × String)) (k v : String) :
    dictInsert mp k v ≠ [] := by
  unfold dictInsert
  cases mp with
  | nil => simp
  | cons p ps => split <;> simp

/-- The sanitize fold never shrinks a nonempty dict to empty. -/
theorem sanitizeGo_ne_nil (fuel : Nat) :
    ∀ (cols : List String) (mp : List (String × String)) (used : List String)
      (counter : Nat) (out : List (String × String)),
      sanitizeGo fuel cols mp used counter = some out → mp ≠ [] → out ≠ [] := by
  intro cols
  induction cols with
  | nil =>
    intro mp used counter out h hmp
    simp only [sanitizeGo] at h
    injection h with h
    exact h ▸ hmp
  | cons c cs ih =>
    intro mp used counter out h hmp
    simp only [sanitizeGo] at h
    cases hc : collideLoop fuel used counter (candidate counter c) with
    | none => rw [hc] at h; exact absurd h (by simp)
    | some n =>
      rw [hc] at h
      exact ih _ _ _ _ h (dictInsert_ne_nil mp c n)

/-- A successful sanitization of a nonempty column list yields a nonempty
mapping (so the audit guard `if mp:` is true). -/
theorem sanitizeNames_ne_nil (fuel : Nat) (c : String) (cs : List String)
    (mp : List (String × String))
    (h : sanitizeNames fuel (c :: cs) = some mp) : mp ≠ [] := by
  simp only [sanitizeNames, sanitizeGo] at h
  cases hc : collideLoop fuel [] 1 (candidate 1 c) with
  | none => rw [hc] at h; exact absurd h (by simp)
  | some n =>
    rw [hc] at h
    exact sanitizeGo_ne_nil fuel cs _ _ _ _ h (dictInsert_ne_nil [] c n)

/-- A column list with an illegal name is nonempty. -/
theorem illegalNames_ne_nil_nonempty {cols : List String}
    (h : illegalNames cols ≠ []) : cols ≠ [] := by
  intro hc
  rw [hc] at h
  exact h rfl

/-- C1 counterexample: on the table `["Income(USD)", "M", "Y"]` (consent
given) the produced audit holds the identity rows `("M", "M")` and
`("Y", "Y")`, so it is not the list of entries whose original differs
from the generated identifier: only the console report applies that
filter (mplusprep.py:86-88), the CSV write (mplusprep.py:96) dumps the
whole mapping. -/
theorem c1_audit_counterexample :
    extractAudit (convert 1 ⟨["Income(USD)", "M", "Y"], []⟩ true .m "d")
      = some [("Income(USD)", "IncomeUS"), ("M", "M"), ("Y", "Y")] ∧
    [("Income(USD)", "IncomeUS"), ("M", "M"), ("Y", "Y")].filter
        (fun p => p.1 != p.2) ≠
      [("Income(USD)", "IncomeUS"), ("M", "M"), ("Y", "Y")] := by
  constructor
  · decide
  · decide

/-- C1 (corrected): whenever illegal identifiers exist and the conversion
succeeds with consent, the audit written to `<prefix>_variable_map.csv`
is the entire Rename Mapping, one row per mapping entry in column order,
identity entries included. -/
theorem c1_audit_is_full_mapping (fuel : Nat) (t : Table) (mode : Mode)
    (datAbs : String) (hbad : illegalNames t.cols ≠ [])
    (hok : isOk (convert fuel t true mode datAbs) = true) :
    extractAudit (convert fuel t true mode datAbs) =
      sanitizeNames fuel t.cols := by
  unfold convert at hok ⊢
  rw [if_neg hbad] at hok ⊢
  simp only [if_neg (by simp : ¬(true = false))] at hok ⊢
  cases hs : sanitizeNames fuel t.cols with
  | none => rw [hs] at hok; simp [isOk] at hok
  | some mp =>
    rw [hs] at hok
    simp only [] at hok ⊢
    cases hr : renderInp mode (applyRename mp t.cols) datAbs with
    | none => rw [hr] at hok; simp [isOk] at hok
    | some chunks =>
      rw [hr] at hok
      simp only [hr]
      obtain ⟨c, cs, hcols⟩ : ∃ c cs, t.cols = c :: cs := by
        cases hcc : t.cols with
        | nil => exact absurd hcc (illegalNames_ne_nil_nonempty hbad)
        | cons c cs => exact ⟨c, cs, rfl⟩
      have hmp : mp ≠ [] := sanitizeNames_ne_nil fuel c cs mp (hcols ▸ hs)
      simp [extractAudit, hmp]

/-- Witness for the corrected C1 at `["Income(USD)", "M", "Y"]`: the audit
equals the full three-entry mapping. -/
theorem c1_audit_is_full_mapping_witness :
    (illegalNames ["Income(USD)", "M", "Y"] ≠ [] ∧
      isOk (convert 1 ⟨["Income(USD)", "M", "Y"], []⟩ true .m "d") = true) ∧
    extractAudit (convert 1 ⟨["Income(USD)", "M", "Y"], []⟩ true .m "d") =
      sanitizeNames 1 ["Income(USD)", "M", "Y"] :=
  ⟨⟨by decide, by decide⟩,
    c1_audit_is_full_mapping 1 ⟨["Income(USD)", "M", "Y"], []⟩ .m "d"
      (by decide) (by decide)⟩

/-! ## C8: sanitizing already-legal identifiers is the identity -/

/-- An ASCII letter is not a digit. -/
theorem isAlpha_not_isDigit {ch : Char} (h : ch.isAlpha = true) :
    ch.isDigit = false := by
  simp [Char.isAlpha, Char.isUpper, Char.isLower, Char.isDigit,
    UInt32.le_def, BitVec.le_def] at *
  omega

/-- An ASCII letter is a word character. -/
theorem isWordChar_of_isAlpha {ch : Char} (h : ch.isAlpha = true) :
    isWordChar ch = true := by
  simp [isWordChar, h]

/-- Every character of a regex-legal identifier is a word character. -/
theorem matchesNameRe_all_word {c : String} (h : matchesNameRe c = true) :
    ∀ a ∈ c.data, isWordChar a = true := by
  intro a ha
  unfold matchesNameRe at h
  cases hd : c.data with
  | nil => rw [hd] at ha; simp at ha
  | cons ch rest =>
    rw [hd] at h ha
    simp only [Bool.and_eq_true] at h
    rcases List.mem_cons.mp ha with rfl | ha2
    · exact isWordChar_of_isAlpha h.1
    · exact (List.all_eq_true.mp h.2) a ha2

/-- Stripping touches nothing in a regex-legal identifier. -/
theorem stripIllegal_of_legal {c : String} (h : matchesNameRe c = true) :
    stripIllegal c = c := by
  apply String.ext
  show c.data.filter isWordChar = c.data
  rw [List.filter_eq_self]
  exact matchesNameRe_all_word h

/-- A regex-legal identifier does not start with a digit. -/
theorem matchesNameRe_not_digit {c : String} (h : matchesNameRe c = true) :
    startsWithDigit c = false := by
  unfold matchesNameRe at h
  unfold startsWithDigit
  cases hd : c.data with
  | nil => rw [hd] at h
  | cons ch rest =>
    rw [hd] at h
    simp only [Bool.and_eq_true] at h
    exact isAlpha_not_isDigit h.1

/-- A regex-legal identifier is nonempty. -/
theorem matchesNameRe_ne_nil {c : String} (h : matchesNameRe c = true) :
    c.data ≠ [] := by
  unfold matchesNameRe at h
  intro hd
  rw [hd] at h
  exact absurd h (by simp)

/-- The pre-collision candidate of a legal identifier of length at most 8
is the identifier itself. -/
theorem candidate_of_legal {c : String} (counter : Nat)
    (hre : matchesNameRe c = true) (hlen : c.length ≤ 8) :
    candidate counter c = c := by
  simp only [candidate]
  rw [stripIllegal_of_legal hre]
  rw [if_neg (by
    simp only [not_or, Bool.not_eq_true]
    exact ⟨matchesNameRe_ne_nil hre, matchesNameRe_not_digit hre⟩)]
  apply String.ext
  show c.data.take 8 = c.data
  exact List.take_of_length_le hlen

/-- The sanitize fold maps every column to itself when all columns are
legal, pairwise distinct, not yet used and not yet bound. -/
theorem sanitizeGo_identity (fuel : Nat) :
    ∀ (cols : List String) (mp : List (String × String)) (used : List String)
      (counter : Nat),
      (∀ c ∈ cols, matchesNameRe c = true ∧ c.length ≤ 8) →
      cols.Nodup →
      (∀ c ∈ cols, c ∉ used) →
      (∀ c ∈ cols, ∀ p ∈ mp, p.1 ≠ c) →
      sanitizeGo fuel cols mp used counter =
        some (mp ++ cols.map fun c => (c, c)) := by
  intro cols
  induction cols with
  | nil => intro mp used counter _ _ _ _; simp [sanitizeGo]
  | cons c cs ih =>
    intro mp used counter hleg hnd hused hkeys
    have hc := hleg c (List.mem_cons_self c cs)
    simp only [sanitizeGo]
    rw [candidate_of_legal counter hc.1 hc.2,
      collideLoop_of_not_mem (hused c (List.mem_cons_self c cs)) fuel counter]
    have hins : dictInsert mp c c = mp ++ [(c, c)] := by
      unfold dictInsert
      rw [if_neg ?_]
      simp only [List.any_eq_true, beq_iff_eq]
      intro hex
      obtain ⟨p, hp, hpc⟩ := hex
      exact hkeys c (List.mem_cons_self c cs) p hp hpc
    simp only []
    rw [hins]
    rw [ih (mp ++ [(c, c)]) (c :: used) (counter + 1)
      (fun x hx => hleg x (List.mem_cons_of_mem c hx))
      ((List.nodup_cons.mp hnd).2)
      ?_ ?_]
    · simp
    · intro x hx
      simp only [List.mem_cons, not_or]
      exact ⟨fun he => ((List.nodup_cons.mp hnd).1 (he ▸ hx)),
        hused x (List.mem_cons_of_mem c hx)⟩
    · intro x hx p hp
      rcases List.mem_append.mp hp with hmp | hcc
      · exact hkeys x (List.mem_cons_of_mem c hx) p hmp
      · have hpc : p = (c, c) := by simpa using hcc
        subst hpc
        exact fun he => (List.nodup_cons.mp hnd).1
          (show c ∈ cs by rw [show c = x from he]; exact hx)

/-- C8 (confirmed): re-sanitizing a pairwise-distinct list of identifiers
that are all already legal (regex-valid and at most 8 characters) yields
the identity mapping, for any fuel bound (the collision loop is never
entered). -/
theorem c8_sanitize_identity_on_legal (fuel : Nat) (cols : List String)
    (hleg : illegalNames cols = []) (hnd : cols.Nodup) :
    sanitizeNames fuel cols = some (cols.map fun c => (c, c)) := by
  have h : ∀ c ∈ cols, matchesNameRe c = true ∧ c.length ≤ 8 := by
    intro c hc
    have hx := List.filter_eq_nil_iff.mp hleg c hc
    simp only [Bool.or_eq_true, Bool.not_eq_true', decide_eq_true_eq,
      not_or, Bool.not_eq_false] at hx
    exact ⟨hx.1, by omega⟩
  exact sanitizeGo_identity fuel cols [] [] 1 h hnd (by simp) (by simp)

/-- Witness for C8 at the legal, distinct list `["X", "M", "Y"]`. -/
theorem c8_sanitize_identity_on_legal_witness :
    (illegalNames ["X", "M", "Y"] = [] ∧ List.Nodup ["X", "M", "Y"]) ∧
    sanitizeNames 0 ["X", "M", "Y"] = some (["X", "M", "Y"].map fun c => (c, c)) :=
  ⟨⟨by decide, by decide⟩,
    c8_sanitize_identity_on_legal 0 ["X", "M", "Y"] (by decide) (by decide)⟩

/-! ## C5: shape of the emitted data file -/

/-- Whether a cell is a float cell holding a finite value: `float_format`
touches only float cells, and only finite values render in `%.6f` shape
(`NaN` renders as the empty string, infinities as `"inf"` / `"-inf"`). -/
def Cell.isFiniteFlt : Cell → Bool
  | .flt (.finite _) => true
  | _ => false

/-- Digit characters are not `'.'`, `' '` or `'"'`. -/
theorem digitChar_safe : ∀ d, d < 10 →
    digitChar d ≠ '.' ∧ digitChar d ≠ ' ' ∧ digitChar d ≠ '"' := by decide

/-- Every character of a printed natural is a digit character. -/
theorem natDigits_mem : ∀ n ch, ch ∈ natDigits n →
    ∃ d, d < 10 ∧ ch = digitChar d := by
  intro n
  induction n using Nat.strong_induction_on with
  | _ n ih =>
    intro ch hch
    unfold natDigits at hch
    by_cases h : n < 10
    · rw [dif_pos h] at hch
      simp at hch
      exact ⟨n, h, hch⟩
    · rw [dif_neg h] at hch
      rcases List.mem_append.mp hch with h1 | h2
      · exact ih (n / 10) (Nat.div_lt_self (by omega) (by omega)) ch h1
      · simp at h2
        exact ⟨n % 10, Nat.mod_lt _ (by omega), h2⟩

/-- A printed natural has at least one digit. -/
theorem natDigits_ne_nil (n : Nat) : natDigits n ≠ [] := by
  unfold natDigits
  by_cases h : n < 10
  · rw [dif_pos h]; simp
  · rw [dif_neg h]; simp

/-- Every character of the fractional part is a digit character. -/
theorem sixDigits_mem {k : Nat} {ch : Char} (h : ch ∈ sixDigits k) :
    ∃ d, d < 10 ∧ ch = digitChar d := by
  unfold sixDigits at h
  simp only [List.mem_cons, List.not_mem_nil, or_false] at h
  rcases h with h | h | h | h | h | h <;>
    exact ⟨_, Nat.mod_lt _ (by omega), h⟩

/-- Characters of a `%.6f` rendering: minus sign, point, or digit. -/
theorem renderFlt_mem {q : ℚ} {ch : Char} (h : ch ∈ renderFlt q) :
    ch = '-' ∨ ch = '.' ∨ ∃ d, d < 10 ∧ ch = digitChar d := by
  unfold renderFlt at h
  simp only [List.append_assoc, List.mem_append, List.mem_cons] at h
  rcases h with h | h | h | h
  · left
    rcases (by split at h <;> simp_all : ch = '-') with rfl
    rfl
  · exact Or.inr (Or.inr (natDigits_mem _ ch h))
  · exact Or.inr (Or.inl h)
  · exact Or.inr (Or.inr (sixDigits_mem h))

/-- A `%.6f` rendering contains no space. -/
theorem renderFlt_no_space {q : ℚ} {ch : Char} (h : ch ∈ renderFlt q) :
    ch ≠ ' ' := by
  rcases renderFlt_mem h with rfl | rfl | ⟨d, hd, rfl⟩
  · decide
  · decide
  · exact (digitChar_safe d hd).2.1

/-- A `%.6f` rendering contains no quote character. -/
theorem renderFlt_no_quote {q : ℚ} {ch : Char} (h : ch ∈ renderFlt q) :
    ch ≠ '"' := by
  rcases renderFlt_mem h with rfl | rfl | ⟨d, hd, rfl⟩
  · decide
  · decide
  · exact (digitChar_safe d hd).2.2

/-- A `%.6f` rendering is nonempty. -/
theorem renderFlt_ne_nil (q : ℚ) : renderFlt q ≠ [] := by
  unfold renderFlt
  intro h
  have : '.' ∈ ([] : List Char) := by
    rw [← h]
    simp
  simp at this

/-- `takeWhile` keeps a satisfying prefix and stops at the first failing
element. -/
theorem takeWhile_append_stop {p : Char → Bool} :
    ∀ (xs : List Char) (y : Char) (ys : List Char),
      (∀ x ∈ xs, p x = true) → p y = false →
      List.takeWhile p (xs ++ y :: ys) = xs := by
  intro xs y ys hxs hy
  induction xs with
  | nil => simp [List.takeWhile_cons, hy]
  | cons x xs ih =>
    rw [List.cons_append, List.takeWhile_cons,
      if_pos (hxs x (List.mem_cons_self x xs)),
      ih (fun a ha => hxs a (List.mem_cons_of_mem x ha))]

/-- A `%.6f` rendering shows exactly 6 fractional digits. -/
theorem fracLen_renderFlt (q : ℚ) :
    fracLen (String.mk (renderFlt q)) = 6 := by
  have hsplit : renderFlt q =
      ((if q < 0 then ['-'] else []) ++ natDigits
        ((round (q * 1000000) : Int).natAbs / 1000000)) ++
        '.' :: sixDigits ((round (q * 1000000) : Int).natAbs % 1000000) := by
    unfold renderFlt
    simp [List.append_assoc]
  unfold fracLen
  rw [if_pos (by rw [hsplit]; exact List.mem_append_right _ (List.mem_cons_self _ _))]
  show (List.takeWhile _ (renderFlt q).reverse).length = 6
  rw [hsplit, List.reverse_append, List.reverse_cons, List.append_assoc,
    List.singleton_append]
  rw [takeWhile_append_stop _ '.' _
    (fun x hx => by
      rcases sixDigits_mem (List.mem_reverse.mp hx) with ⟨d, hd, rfl⟩
      simp [(digitChar_safe d hd).1]) (by decide)]
  rw [List.length_reverse]
  simp [sixDigits]


/-- Scanning non-space characters inside a field adds no field. -/
theorem countFieldsGo_in_field :
    ∀ (f : List Char), (∀ ch ∈ f, ch ≠ ' ') →
      ∀ rest, countFieldsGo true (f ++ rest) = countFieldsGo true rest := by
  intro f
  induction f with
  | nil => intro _ rest; rfl
  | cons x xs ih =>
    intro hf rest
    rw [List.cons_append]
    simp only [countFieldsGo, if_neg (hf x (List.mem_cons_self x xs))]
    simp only [if_true, reduceIte]
    rw [ih (fun a ha => hf a (List.mem_cons_of_mem x ha)) rest]
    omega

/-- Scanning a nonempty space-free field from outside a field adds one. -/
theorem countFieldsGo_new_field :
    ∀ (f : List Char), f ≠ [] → (∀ ch ∈ f, ch ≠ ' ') →
      ∀ rest, countFieldsGo false (f ++ rest) = 1 + countFieldsGo true rest := by
  intro f hne hf rest
  cases f with
  | nil => exact absurd rfl hne
  | cons x xs =>
    rw [List.cons_append]
    simp only [countFieldsGo, if_neg (hf x (List.mem_cons_self x xs))]
    rw [countFieldsGo_in_field xs (fun a ha => hf a (List.mem_cons_of_mem x ha)) rest]
    simp

/-- A space-join of nonempty space-free fields has one whitespace-separated
field per list element. -/
theorem countFields_joinSpace :
    ∀ (fs : List (List Char)),
      (∀ f ∈ fs, f ≠ [] ∧ ∀ ch ∈ f, ch ≠ ' ') →
      countFieldsGo false (joinSpace fs) = fs.length := by
  intro fs
  induction fs with
  | nil => intro _; rfl
  | cons f fs ih =>
    intro hfs
    cases fs with
    | nil =>
      have hf := hfs f (List.mem_cons_self f [])
      show countFieldsGo false (joinSpace [f]) = 1
      have : joinSpace [f] = f ++ [] := by simp [joinSpace]
      rw [this, countFieldsGo_new_field f hf.1 hf.2 []]
      rfl
    | cons g gs =>
      have hf := hfs f (List.mem_cons_self f (g :: gs))
      show countFieldsGo false (f ++ ' ' :: joinSpace (g :: gs)) = (g :: gs).length + 1
      rw [countFieldsGo_new_field f hf.1 hf.2 (' ' :: joinSpace (g :: gs))]
      show 1 + countFieldsGo false (joinSpace (g :: gs)) = (g :: gs).length + 1
      rw [ih (fun x hx => hfs x (List.mem_cons_of_mem f hx))]
      omega

/-- Characters of a space-join are separators or field characters. -/
theorem joinSpace_mem :
    ∀ (fs : List (List Char)) (ch : Char), ch ∈ joinSpace fs →
      ch = ' ' ∨ ∃ f ∈ fs, ch ∈ f := by
  intro fs
  induction fs with
  | nil => intro ch h; simp [joinSpace] at h
  | cons f fs ih =>
    intro ch h
    cases fs with
    | nil =>
      simp only [joinSpace] at h
      exact Or.inr ⟨f, List.mem_cons_self f [], h⟩
    | cons g gs =>
      rw [show joinSpace (f :: g :: gs) = f ++ ' ' :: joinSpace (g :: gs)
        from rfl] at h
      rcases List.mem_append.mp h with h1 | h2
      · exact Or.inr ⟨f, List.mem_cons_self f (g :: gs), h1⟩
      · rcases List.mem_cons.mp h2 with rfl | h3
        · exact Or.inl rfl
        · rcases ih ch h3 with hsp | ⟨f2, hf2, hch⟩
          · exact Or.inl hsp
          · exact Or.inr ⟨f2, List.mem_cons_of_mem f hf2, hch⟩

/-- C5 (corrected, restricted to tables of finite float cells): the
emitted data file has one line per row, each line has as many
whitespace-separated fields as the Table has columns, every value shows
exactly 6 fractional digits, and there is no header line (line count
equals row count) and no quoting (no quote character occurs).  The
restriction to finite values is forced: an integer cell prints without
decimals (the counterexample), a `NaN` float cell renders as the empty
string (losing a whitespace-separated field) and an infinite float cell
renders as `"inf"` with no fractional digits. -/
theorem c5_allfloat_data_file (t : Table)
    (hflt : ∀ row ∈ t.rows, ∀ cell ∈ row, Cell.isFiniteFlt cell = true)
    (hrect : ∀ row ∈ t.rows, row.length = t.cols.length) :
    (writeDat t.rows).length = t.rows.length ∧
    (∀ line ∈ writeDat t.rows, fieldCount line = t.cols.length) ∧
    (∀ row ∈ t.rows, ∀ cell ∈ row, fracLen (String.mk (renderCell cell)) = 6) ∧
    (∀ line ∈ writeDat t.rows, '"' ∉ line.data) := by
  have hcell : ∀ row ∈ t.rows, ∀ cell ∈ row,
      ∃ q, cell = Cell.flt (.finite q) := by
    intro row hr cell hc
    have := hflt row hr cell hc
    cases cell with
    | flt v =>
      cases v with
      | finite q => exact ⟨q, rfl⟩
      | nan => simp [Cell.isFiniteFlt] at this
      | inf => simp [Cell.isFiniteFlt] at this
      | negInf => simp [Cell.isFiniteFlt] at this
    | intg n => simp [Cell.isFiniteFlt] at this
    | txt s => simp [Cell.isFiniteFlt] at this
  refine ⟨by simp [writeDat], ?_, ?_, ?_⟩
  · intro line hline
    rcases List.mem_map.mp hline with ⟨row, hrow, rfl⟩
    show countFieldsGo false (joinSpace (row.map renderCell)) = t.cols.length
    rw [countFields_joinSpace (row.map renderCell) ?_]
    · rw [List.length_map]; exact hrect row hrow
    · intro f hf
      rcases List.mem_map.mp hf with ⟨cell, hcell2, rfl⟩
      obtain ⟨q, rfl⟩ := hcell row hrow cell hcell2
      exact ⟨renderFlt_ne_nil q, fun ch hch => renderFlt_no_space hch⟩
  · intro row hrow cell hc
    obtain ⟨q, rfl⟩ := hcell row hrow cell hc
    exact fracLen_renderFlt q
  · intro line hline
    rcases List.mem_map.mp hline with ⟨row, hrow, rfl⟩
    show ¬ '"' ∈ joinSpace (row.map renderCell)
    intro hq
    rcases joinSpace_mem _ '"' hq with hsp | ⟨f, hf, hch⟩
    · exact absurd hsp (by decide)
    · rcases List.mem_map.mp hf with ⟨cell, hcell2, rfl⟩
      obtain ⟨q, rfl⟩ := hcell row hrow cell hcell2
      exact renderFlt_no_quote hch rfl

/-- Non-finite float cells really do break the claim's conjuncts, so the
finite-value restriction of the corrected C5 is necessary: a two-column
row holding a `NaN` and an infinity emits the line `" inf"`, which has a
single whitespace-separated field (the `NaN` rendered as the empty
string), and `"inf"` shows 0 fractional digits. -/
theorem writeDat_nan_inf_break :
    writeDat [[Cell.flt .nan, Cell.flt .inf]] = [" inf"] ∧
    fieldCount " inf" = 1 ∧ fracLen "inf" = 0 := by decide

/-- C5 counterexample: an integer column is printed without decimals
(`float_format="%.6f"` only applies to float cells), so on the one-cell
table `[[7]]` the emitted field `"7"` shows 0 fractional digits, not 6. -/
theorem c5_counterexample :
    writeDat [[Cell.intg 7]] = ["7"] ∧ fracLen "7" = 0 := by
  constructor
  · simp [writeDat, renderCell, joinSpace, natDigits]
    decide
  · decide

/-- Witness for the corrected C5 on a one-row table of two finite float
cells. -/
theorem c5_allfloat_data_file_witness :
    ((∀ row ∈ [[Cell.flt (.finite (3 / 2)), Cell.flt (.finite 2)]],
        ∀ cell ∈ row, Cell.isFiniteFlt cell = true) ∧
      (∀ row ∈ [[Cell.flt (.finite (3 / 2)), Cell.flt (.finite 2)]],
        row.length = (["X", "M"] : List String).length)) ∧
    (writeDat [[Cell.flt (.finite (3 / 2)), Cell.flt (.finite 2)]]).length =
      ([[Cell.flt (.finite (3 / 2)), Cell.flt (.finite 2)]] : List (List Cell)).length ∧
    (∀ line ∈ writeDat [[Cell.flt (.finite (3 / 2)), Cell.flt (.finite 2)]],
      fieldCount line = (["X", "M"] : List String).length) ∧
    (∀ row ∈ [[Cell.flt (.finite (3 / 2)), Cell.flt (.finite 2)]],
      ∀ cell ∈ row, fracLen (String.mk (renderCell cell)) = 6) ∧
    (∀ line ∈ writeDat [[Cell.flt (.finite (3 / 2)), Cell.flt (.finite 2)]],
      '"' ∉ line.data) :=
  ⟨⟨by decide, by decide⟩,
    c5_allfloat_data_file
      ⟨["X", "M"], [[Cell.flt (.finite (3 / 2)), Cell.flt (.finite 2)]]⟩
      (by decide) (by decide)⟩

/-! ## C10: the forced-fallback prompt is unreachable for decode failures -/

/-- If the last candidate decodes, the candidate loop returns within the
list, whatever the earlier candidates do. -/
theorem fallbackLoop_isSome_of_last {ε τ : Type} (parse : List Char → Except ε τ)
    (dec : Enc → List (Fin 256) → Option (List Char)) (e0 : Enc)
    (bs : List (Fin 256)) (h : (dec e0 bs).isSome = true) :
    ∀ es : List Enc, (fallbackLoop parse dec (es ++ [e0]) bs).isSome = true := by
  intro es
  induction es with
  | nil =>
    simp only [List.nil_append, fallbackLoop]
    cases hd : dec e0 bs with
    | none => rw [hd] at h; simp at h
    | some txt => simp
  | cons e es ih =>
    rw [List.cons_append]
    simp only [fallbackLoop]
    cases hd : dec e bs with
    | none => exact ih
    | some txt => simp

/-- C10 (confirmed): `latin1`, the last candidate, decodes every byte
sequence, so the candidate loop always returns at or before the latin1
attempt (it yields a result for every input and every behaviour of the
earlier codecs, which can only fail by decode error in the loop) and the
interactive forced-fallback prompt is never consulted: the result does not
depend on the prompt's answer. -/
theorem c10_prompt_unreachable {ε τ : Type} (parse : List Char → Except ε τ)
    (decOther : Enc → List (Fin 256) → Option (List Char))
    (bs : List (Fin 256)) :
    (fallbackLoop parse (mkDec decOther) candidateEncs bs).isSome = true ∧
    readCsvWithFallback parse decOther true bs =
      readCsvWithFallback parse decOther false bs := by
  have hloop : (fallbackLoop parse (mkDec decOther) candidateEncs bs).isSome = true := by
    have hdec : (mkDec decOther .latin1 bs).isSome = true := by simp [mkDec]
    exact fallbackLoop_isSome_of_last parse (mkDec decOther) .latin1 bs hdec
      [.utf8, .gbk, .gb2312, .cp936]
  refine ⟨hloop, ?_⟩
  obtain ⟨r, hr⟩ := Option.isSome_iff_exists.mp hloop
  unfold readCsvWithFallback
  rw [hr]
  cases r with
  | ok v => rfl
  | error e => rfl

end MplusPrep

